import Mathlib

/-!
Verification of the candidate-evaluation workflow of `candidates_portal`.

The definitions below are a shallow embedding of the repository's Python
code (Django models, view handlers, authentication backend, signals and
the Excel import command).  Database rows are Lean structures, the
database is explicit state, each view handler becomes a pure function
from a database and request data to an outcome and a new database.
Decimal scores are modelled as rationals.
-/

namespace CandidatesPortal

/-- One hiring round (`models.Opportunity`). -/
structure Opportunity where
  name : String
  is_active : Bool
  deriving DecidableEq, Repr

/-- An evaluation panel inside an opportunity (`models.Committee`). -/
structure Committee where
  name : String
  opportunity : Nat
  is_open : Bool
  deriving DecidableEq, Repr

/-- A person's access profile (`models.MemberProfile`): the login identity
(national id + last 4 of the mobile number), the role string, and the
optional opportunity / committee scope links. -/
structure MemberProfile where
  user : Nat
  national_id : String
  mobile_last4 : String
  role : String
  opportunity : Option Nat
  committee : Option Nat
  is_active : Bool
  deriving DecidableEq, Repr

/-- The candidate attributes imported from the Excel sheet
(`models.Candidate`, the "Excel fields" block plus `full_name` and
`mobile`); these are exactly the keys of the `defaults` dict built by
`import_candidates_excel.Command.handle`. -/
structure ImportedFields where
  full_name : String
  mobile : String
  specialization : String
  rank : String
  current_work : String
  start_date_hijri : String
  school : String
  sector : String
  applied_position : String
  opportunity_school : String
  opportunity_sector : String
  admin_exp : String
  years_director : Nat
  years_deputy : Nat
  cv_url : String
  deriving DecidableEq, Repr

/-- One applicant inside one opportunity (`models.Candidate`).
Timestamps are abstract `Nat` instants; user foreign keys are `Nat` ids. -/
structure Candidate where
  opportunity : Nat
  assigned_committee : Option Nat
  national_id : String
  imported : ImportedFields
  file_score : Option ℚ
  file_not_eligible : Bool
  file_not_eligible_reason : String
  file_reviewer : Option Nat
  file_scored_at : Option Nat
  is_finalized : Bool
  finalized_by : Option Nat
  finalized_at : Option Nat
  deriving DecidableEq, Repr

/-- One committee member's interview score for one candidate
(`models.InterviewScore`); unique per (committee, candidate, member). -/
structure InterviewScore where
  committee : Nat
  candidate : Nat
  member : Nat
  score : ℚ
  notes : String
  deriving DecidableEq, Repr

/-- The committee's terminal verdict (`models.FinalDecision`).  The
`candidate` link is a `OneToOneField` in the source, i.e. unique on the
candidate alone, not merely on the (committee, candidate) pair. -/
structure FinalDecision where
  committee : Nat
  candidate : Nat
  is_nominated : Bool
  reason : String
  final_score_value : ℚ
  submitted_by : Option Nat
  deriving DecidableEq, Repr

/-- The relational store: each table is a list of rows, keyed tables are
lists of (primary key, row) pairs.  `next_id` supplies fresh primary keys
for inserts. -/
structure DB where
  opportunities : List (Nat × Opportunity)
  committees : List (Nat × Committee)
  candidates : List (Nat × Candidate)
  interview_scores : List InterviewScore
  final_decisions : List FinalDecision
  profiles : List MemberProfile
  next_id : Nat
  deriving DecidableEq, Repr

/-- `Candidate.objects.get(pk=pk)`: the first candidate row with this key. -/
def getCandidate (db : DB) (pk : Nat) : Option Candidate :=
  (db.candidates.find? (fun e => e.1 == pk)).map (fun e => e.2)

/-- `Committee.objects.get(pk=ck)`. -/
def getCommittee (db : DB) (ck : Nat) : Option Committee :=
  (db.committees.find? (fun e => e.1 == ck)).map (fun e => e.2)

/-- Apply `f` to the candidate row(s) with key `pk` (the ORM `save()` of a
fetched and mutated candidate instance). -/
def updateCandidate (db : DB) (pk : Nat) (f : Candidate → Candidate) : DB :=
  { db with candidates :=
      db.candidates.map (fun e => if e.1 == pk then (e.1, f e.2) else e) }

-- ==========================================================
-- models.py: computed properties
-- ==========================================================

/-- `Candidate.interview_scores_for_committee`: the scores of this
candidate's InterviewScore rows for the given committee. -/
def interview_scores_for_committee (db : DB) (pk : Nat) (com : Nat) : List ℚ :=
  (db.interview_scores.filter
      (fun s => s.candidate == pk && s.committee == com)).map (fun s => s.score)

/-- `Candidate.interview_avg`: 0 unless exactly 3 scores exist, otherwise
their sum divided by 3. -/
def interview_avg (db : DB) (pk : Nat) (com : Nat) : ℚ :=
  let scores := interview_scores_for_committee db pk com
  if scores.length ≠ 3 then 0
  else (scores.foldl (fun a b => a + b) 0) / 3

/-- `Candidate.final_score`: 0 for an ineligible candidate, 0 when no file
score is recorded, otherwise file score plus interview average. -/
def final_score (db : DB) (pk : Nat) (c : Candidate) (com : Nat) : ℚ :=
  if c.file_not_eligible then 0
  else
    match c.file_score with
    | none => 0
    | some s => s + interview_avg db pk com

/-- `Candidate.is_ready_for_distribution`. -/
def is_ready_for_distribution (c : Candidate) : Bool :=
  c.file_score.isSome || c.file_not_eligible

-- ==========================================================
-- views.py: outcome type and user-facing messages
-- ==========================================================

/-- Outcome of a handler: a success / error / info message, a 404, or an
uncaught database integrity error. -/
inductive Res where
  | ok (msg : String)
  | err (msg : String)
  | info (msg : String)
  | notFound
  | dbError
  deriving DecidableEq, Repr

def msgFinalizedNoEdit : String := "تم اعتماد هذا المرشح نهائياً ولا يمكن تعديله."
def msgBadScore : String := "أدخل درجة صحيحة بين 0 و 50."
def msgFileSaved : String := "تم حفظ تقييم الملف."
def msgNoActiveOpp : String := "لا توجد فرصة فعّالة."
def msgCandMissing : String := "المرشح غير موجود."
def msgComMissing : String := "اللجنة غير موجودة أو غير مفتوحة."
def msgNotReady : String := "هذا المرشح غير جاهز للتوزيع بعد."
def msgAlreadyAssigned : String := "تم توزيع هذا المرشح مسبقاً."
def msgAssigned : String := "تم توزيع المرشح على اللجنة."
def msgFinalizedShort : String := "تم اعتماد المرشح نهائياً."
def msgInterviewSaved : String := "تم حفظ درجة المقابلة."
def msgAlreadyFinalized : String := "تم اعتماد المرشح مسبقاً."
def msgFinalizeDone : String := "تم اعتماد النتيجة وإرسالها للإدارة."

/-- `parse_decimal_0_50` (views.py): the raw POST field is modelled as an
already-parsed optional rational, `none` standing for a string that
`Decimal(...)` rejects; the range guard is the source's own. -/
def parse_decimal_0_50 (v : Option ℚ) : Option ℚ :=
  match v with
  | none => none
  | some x => if x < 0 ∨ x > 50 then none else some x

-- ==========================================================
-- views.py: file_score_view (supervisor + chair, unified)
-- ==========================================================

/-- The caller of `file_score_view`: a supervisor scoped to an
opportunity or a chair scoped to a committee. -/
inductive FsCaller where
  | supervisor (opp : Nat)
  | chair (com : Nat)
  deriving DecidableEq, Repr

/-- The POST body of `file_score_view`: either the `not_eligible` action
with a reason, or a score submission. -/
inductive FsAction where
  | not_eligible (reason : String)
  | score (raw : Option ℚ)
  deriving DecidableEq, Repr

/-- The `get_object_or_404` lookup of `file_score_view`: a supervisor only
sees candidates of their opportunity, a chair only candidates assigned to
their committee. -/
def fs_lookup (db : DB) (pk : Nat) (caller : FsCaller) : Option Candidate :=
  (getCandidate db pk).bind (fun c =>
    match caller with
    | .supervisor opp => if c.opportunity == opp then some c else none
    | .chair com => if c.assigned_committee == some com then some c else none)

/-- `file_score_view` POST handler: reject a finalized candidate, validate
the score, then set exactly one of scored / ineligible, clear the other,
and stamp reviewer and time. -/
def file_score_view (db : DB) (caller : FsCaller) (pk : Nat)
    (user now : Nat) (action : FsAction) : Res × DB :=
  match fs_lookup db pk caller with
  | none => (Res.notFound, db)
  | some cand =>
    if cand.is_finalized then (Res.err msgFinalizedNoEdit, db)
    else
      match action with
      | .not_eligible reason =>
          (Res.ok msgFileSaved,
            updateCandidate db pk (fun c =>
              { c with file_not_eligible := true,
                       file_not_eligible_reason := reason,
                       file_score := none,
                       file_reviewer := some user,
                       file_scored_at := some now }))
      | .score raw =>
          match parse_decimal_0_50 raw with
          | none => (Res.err msgBadScore, db)
          | some v =>
              (Res.ok msgFileSaved,
                updateCandidate db pk (fun c =>
                  { c with file_score := some v,
                           file_not_eligible := false,
                           file_not_eligible_reason := "",
                           file_reviewer := some user,
                           file_scored_at := some now }))

-- ==========================================================
-- views.py: distribution_view (admin)
-- ==========================================================

/-- `Opportunity.objects.filter(is_active=True).first()`. -/
def first_active_opportunity (db : DB) : Option Nat :=
  (db.opportunities.find? (fun e => e.2.is_active)).map (fun e => e.1)

/-- `distribution_view` POST handler: resolve the active opportunity,
fetch candidate and open committee inside it, reject a not-ready
candidate, report an already-assigned candidate as informational, else
assign. -/
def distribution_view (db : DB) (cand_id committee_id : Nat) : Res × DB :=
  match first_active_opportunity db with
  | none => (Res.err msgNoActiveOpp, db)
  | some opp =>
    match (getCandidate db cand_id).bind
        (fun c => if c.opportunity == opp then some c else none) with
    | none => (Res.err msgCandMissing, db)
    | some cand =>
      match (getCommittee db committee_id).bind
          (fun k => if k.opportunity == opp && k.is_open then some k else none) with
      | none => (Res.err msgComMissing, db)
      | some _ =>
        if cand.file_score.isNone && !cand.file_not_eligible then
          (Res.err msgNotReady, db)
        else if cand.assigned_committee.isSome then
          (Res.info msgAlreadyAssigned, db)
        else
          (Res.ok msgAssigned,
            updateCandidate db cand_id
              (fun c => { c with assigned_committee := some committee_id }))

-- ==========================================================
-- views.py: committee_score (member / chair)
-- ==========================================================

/-- `InterviewScore.objects.update_or_create` keyed by
(committee, candidate, member): overwrite the existing row or append a
new one. -/
def upsert_interview (l : List InterviewScore) (com pk member : Nat)
    (v : ℚ) (notes : String) : List InterviewScore :=
  if l.any (fun s => s.committee == com && s.candidate == pk && s.member == member) then
    l.map (fun s =>
      if s.committee == com && s.candidate == pk && s.member == member then
        { s with score := v, notes := notes }
      else s)
  else
    l ++ [{ committee := com, candidate := pk, member := member,
            score := v, notes := notes }]

/-- `committee_score` POST handler: the candidate must be assigned to the
caller's committee, must not be finalized, the score must validate; then
the caller's score row is upserted. -/
def committee_score (db : DB) (com : Nat) (pk : Nat) (member : Nat)
    (raw : Option ℚ) (notes : String) : Res × DB :=
  match (getCandidate db pk).bind
      (fun c => if c.assigned_committee == some com then some c else none) with
  | none => (Res.notFound, db)
  | some cand =>
    if cand.is_finalized then (Res.err msgFinalizedShort, db)
    else
      match parse_decimal_0_50 raw with
      | none => (Res.err msgBadScore, db)
      | some v =>
          (Res.ok msgInterviewSaved,
            { db with interview_scores :=
                upsert_interview db.interview_scores com pk member v notes })

-- ==========================================================
-- views.py: chair_finalize
-- ==========================================================

/-- `FinalDecision.objects.update_or_create` keyed by
(committee, candidate), under the `OneToOneField` unique constraint on
the candidate: an insert for a candidate that already has a decision row
under another committee violates the constraint (`none` = the resulting
IntegrityError). -/
def fd_upsert (l : List FinalDecision) (com pk : Nat) (nominated : Bool)
    (reason : String) (total : ℚ) (user : Nat) : Option (List FinalDecision) :=
  if l.any (fun d => d.committee == com && d.candidate == pk) then
    some (l.map (fun d =>
      if d.committee == com && d.candidate == pk then
        { d with is_nominated := nominated, reason := reason,
                 final_score_value := total, submitted_by := some user }
      else d))
  else if l.any (fun d => d.candidate == pk) then none
  else
    some (l ++ [{ committee := com, candidate := pk,
                  is_nominated := nominated, reason := reason,
                  final_score_value := total, submitted_by := some user }])

/-- `chair_finalize` POST handler: the candidate must be assigned to the
chair's committee; an already finalized candidate gets an informational
message and nothing changes; otherwise the decision row is upserted with
the computed score snapshot and the candidate is locked. -/
def chair_finalize (db : DB) (com : Nat) (pk : Nat) (user now : Nat)
    (nominated : Bool) (reason : String) : Res × DB :=
  match (getCandidate db pk).bind
      (fun c => if c.assigned_committee == some com then some c else none) with
  | none => (Res.notFound, db)
  | some cand =>
    let total := final_score db pk cand com
    if cand.is_finalized then (Res.info msgAlreadyFinalized, db)
    else
      match fd_upsert db.final_decisions com pk nominated reason total user with
      | none => (Res.dbError, db)
      | some fds =>
          (Res.ok msgFinalizeDone,
            updateCandidate { db with final_decisions := fds } pk
              (fun c => { c with is_finalized := true,
                                 finalized_by := some user,
                                 finalized_at := some now }))

-- ==========================================================
-- auth_backend.py: NationalIdLast4Backend
-- ==========================================================

/-- The concrete field names of `MemberProfile` against which an ORM
filter keyword is resolved; a keyword outside this list raises a
`FieldError`.  Note there is no field called `last4` — the model's field
is `mobile_last4`. -/
def memberProfileFields : List String :=
  ["id", "user", "national_id", "mobile_last4", "role",
   "opportunity", "committee", "is_active"]

/-- Read a string-valued `MemberProfile` field by its column name. -/
def profileFieldValue (p : MemberProfile) (field : String) : Option String :=
  if field == "national_id" then some p.national_id
  else if field == "mobile_last4" then some p.mobile_last4
  else if field == "role" then some p.role
  else none

/-- `MemberProfile.objects.filter(**kwargs)`: every keyword must name an
actual model field, otherwise the ORM raises `FieldError` (modelled as
`Except.error`); a valid filter keeps the rows whose named fields equal
the given values. -/
def profilesFilter (profiles : List MemberProfile)
    (kwargs : List (String × String)) : Except String (List MemberProfile) :=
  if kwargs.all (fun kv => memberProfileFields.contains kv.1) then
    Except.ok (profiles.filter
      (fun p => kwargs.all (fun kv => profileFieldValue p kv.1 == some kv.2)))
  else Except.error "FieldError"

/-- `NationalIdLast4Backend.authenticate`: empty credentials give `None`;
the profile is looked up with `filter(national_id=..., last4=...)` —
using the keyword `last4`, which is not a `MemberProfile` field; a found
but inactive profile gives `None`; an optional required role is checked;
otherwise the profile's user is returned.  `Except.error` is an uncaught
exception escaping the backend. -/
def authenticate (profiles : List MemberProfile)
    (national_id last4 : String) (required_role : Option String) :
    Except String (Option Nat) :=
  if national_id == "" || last4 == "" then Except.ok none
  else
    match profilesFilter profiles
        [("national_id", national_id), ("last4", last4)] with
    | Except.error e => Except.error e
    | Except.ok l =>
      match l.head? with
      | none => Except.ok none
      | some prof =>
        if !prof.is_active then Except.ok none
        else
          match required_role with
          | some r => if prof.role ≠ r then Except.ok none
                      else Except.ok (some prof.user)
          | none => Except.ok (some prof.user)

/-- Outcome of a `login_view` POST. -/
inductive LoginResult where
  | redirectHome (user : Nat)
  | errMissing
  | errBadCredentials
  | errInactive
  | crash (e : String)
  deriving DecidableEq, Repr

def msgMissingCreds : String := "أدخل السجل المدني وآخر 4 أرقام."
def msgBadCreds : String := "بيانات الدخول غير صحيحة."
def msgInactive : String := "حسابك غير مفعّل. راجع الإدارة."

/-- `login_view` POST handler (anonymous caller): missing inputs and a
failed `authenticate` each produce their message; a user returned without
an active profile is rejected; otherwise the user is logged in.  An
exception escaping `authenticate` crashes the request. -/
def login_view (profiles : List MemberProfile)
    (national_id last4 : String) : LoginResult :=
  if national_id == "" || last4 == "" then LoginResult.errMissing
  else
    match authenticate profiles national_id last4 none with
    | Except.error e => LoginResult.crash e
    | Except.ok none => LoginResult.errBadCredentials
    | Except.ok (some u) =>
      match profiles.find? (fun p => p.user == u) with
      | none => LoginResult.errInactive
      | some p =>
          if !p.is_active then LoginResult.errInactive
          else LoginResult.redirectHome u

-- ==========================================================
-- signals.py: ensure_profile
-- ==========================================================

/-- The role choice keys of `MemberProfile.ROLE_CHOICES`. -/
def role_choices : List String := ["supervisor", "member", "chair", "admin"]

/-- The default-role computation of `signals.ensure_profile`: start from
`"supervisor"`, fall back to the first declared choice if it were ever
missing from the choices. -/
def ensure_profile_default_role : String :=
  let d := "supervisor"
  if !(role_choices.contains d) && !role_choices.isEmpty then
    role_choices.headD d
  else d

/-- `signals.ensure_profile`: on creation of a user without an existing
profile, create a MemberProfile with the default role, no committee, and
`is_active=False`; otherwise do nothing (`none`). -/
def ensure_profile (created : Bool) (existing : Option MemberProfile)
    (user : Nat) : Option MemberProfile :=
  if !created then none
  else
    match existing with
    | some _ => none
    | none =>
        some { user := user, national_id := "", mobile_last4 := "",
               role := ensure_profile_default_role, opportunity := none,
               committee := none, is_active := false }

-- ==========================================================
-- import_candidates_excel.py: per-row upsert of Command.handle
-- ==========================================================

/-- One spreadsheet row after header mapping: the national id plus
the imported attribute block (which contains the full name). -/
structure ImportRow where
  national_id : String
  imported : ImportedFields
  deriving DecidableEq, Repr

/-- The per-row body of `import_candidates_excel.Command.handle`
(lines 103–138): skip a row missing id or name; upsert the candidate
keyed by (opportunity, national id) with the imported attributes as
defaults; then, when a committee was named and the assign flag is set,
overwrite the candidate's committee assignment with that committee. -/
def excel_import_row (db : DB) (opp : Nat) (comid : Option Nat)
    (assign : Bool) (row : ImportRow) : DB :=
  if row.national_id == "" || row.imported.full_name == "" then db
  else
    match db.candidates.find?
        (fun e => e.2.opportunity == opp && e.2.national_id == row.national_id) with
    | some e =>
        let cands := db.candidates.map (fun x =>
          if x.1 == e.1 then (x.1, { x.2 with imported := row.imported }) else x)
        let db1 : DB := { db with candidates := cands }
        if comid.isSome && assign then
          updateCandidate db1 e.1 (fun c => { c with assigned_committee := comid })
        else db1
    | none =>
        let newc : Candidate :=
          { opportunity := opp,
            assigned_committee := if comid.isSome && assign then comid else none,
            national_id := row.national_id,
            imported := row.imported,
            file_score := none, file_not_eligible := false,
            file_not_eligible_reason := "", file_reviewer := none,
            file_scored_at := none, is_finalized := false,
            finalized_by := none, finalized_at := none }
        { db with candidates := db.candidates ++ [(db.next_id, newc)],
                  next_id := db.next_id + 1 }

-- ==========================================================
-- Concrete sample data used by witnesses and counterexamples
-- ==========================================================

/-- A neutral block of imported attributes. -/
def exImported : ImportedFields :=
  { full_name := "متقدم تجريبي", mobile := "0500000000", specialization := "",
    rank := "", current_work := "", start_date_hijri := "", school := "",
    sector := "", applied_position := "", opportunity_school := "",
    opportunity_sector := "", admin_exp := "", years_director := 0,
    years_deputy := 0, cv_url := "" }

/-- A candidate of opportunity 1 assigned to committee 1, not yet file
scored, not finalized. -/
def exCandBase : Candidate :=
  { opportunity := 1, assigned_committee := some 1,
    national_id := "1111111111", imported := exImported,
    file_score := none, file_not_eligible := false,
    file_not_eligible_reason := "", file_reviewer := none,
    file_scored_at := none, is_finalized := false,
    finalized_by := none, finalized_at := none }

def exOpp : Opportunity := { name := "حركة 1447", is_active := true }

def exCom : Committee := { name := "اللجنة 1", opportunity := 1, is_open := true }

def exCom2 : Committee := { name := "اللجنة 2", opportunity := 1, is_open := true }

/-- One interview score row for candidate 1 in committee 1. -/
def exScore (member : Nat) (v : ℚ) : InterviewScore :=
  { committee := 1, candidate := 1, member := member, score := v, notes := "" }

/-- A database with one unscored, assigned, unfinalized candidate and no
interview scores. -/
def exDB1 : DB :=
  { opportunities := [(1, exOpp)], committees := [(1, exCom), (2, exCom2)],
    candidates := [(1, exCandBase)], interview_scores := [],
    final_decisions := [], profiles := [], next_id := 2 }

-- ==========================================================
-- Basic lemmas about the store operations
-- ==========================================================

theorem find?_map_key (l : List (Nat × Candidate)) (pk : Nat)
    (f : Candidate → Candidate) :
    (l.map (fun e => if e.1 == pk then (e.1, f e.2) else e)).find?
        (fun e => e.1 == pk)
      = (l.find? (fun e => e.1 == pk)).map (fun e => (e.1, f e.2)) := by
  induction l with
  | nil => rfl
  | cons a t ih =>
    by_cases ha : a.1 = pk
    · have hb : (a.1 == pk) = true := beq_iff_eq.mpr ha
      have h1 : (if (a.1 == pk) = true then (a.1, f a.2) else a) = (a.1, f a.2) :=
        if_pos hb
      rw [List.map_cons, h1, List.find?_cons_of_pos _ (by simpa using hb),
          List.find?_cons_of_pos _ (by simpa using hb), Option.map_some']
    · have hb : (a.1 == pk) = false := beq_eq_false_iff_ne.mpr ha
      have h1 : (if (a.1 == pk) = true then (a.1, f a.2) else a) = a :=
        if_neg (by simp [hb])
      rw [List.map_cons, h1, List.find?_cons_of_neg _ (by simp [hb]),
          List.find?_cons_of_neg _ (by simp [hb]), ih]

theorem find?_map_key_ne (l : List (Nat × Candidate)) (pk pk' : Nat)
    (f : Candidate → Candidate) (h : pk' ≠ pk) :
    (l.map (fun e => if e.1 == pk then (e.1, f e.2) else e)).find?
        (fun e => e.1 == pk')
      = l.find? (fun e => e.1 == pk') := by
  induction l with
  | nil => rfl
  | cons a t ih =>
    by_cases hk : a.1 = pk
    · have hb : (a.1 == pk) = true := beq_iff_eq.mpr hk
      have h1 : (if (a.1 == pk) = true then (a.1, f a.2) else a) = (a.1, f a.2) :=
        if_pos hb
      have hp : (a.1 == pk') = false :=
        beq_eq_false_iff_ne.mpr (fun hcon => h (hk ▸ hcon).symm)
      rw [List.map_cons, h1, List.find?_cons_of_neg _ (by simpa using hp),
          List.find?_cons_of_neg _ (by simp [hp]), ih]
    · have hb : (a.1 == pk) = false := beq_eq_false_iff_ne.mpr hk
      have h1 : (if (a.1 == pk) = true then (a.1, f a.2) else a) = a :=
        if_neg (by simp [hb])
      rw [List.map_cons, h1]
      by_cases hp : a.1 = pk'
      · rw [List.find?_cons_of_pos _ (by simpa using beq_iff_eq.mpr hp),
            List.find?_cons_of_pos _ (by simpa using beq_iff_eq.mpr hp)]
      · have hp' : (a.1 == pk') = false := beq_eq_false_iff_ne.mpr hp
        rw [List.find?_cons_of_neg _ (by simp [hp']),
            List.find?_cons_of_neg _ (by simp [hp']), ih]

theorem getCandidate_update_self (db : DB) (pk : Nat)
    (f : Candidate → Candidate) :
    getCandidate (updateCandidate db pk f) pk = (getCandidate db pk).map f := by
  simp only [getCandidate, updateCandidate, find?_map_key, Option.map_map]
  rfl

theorem getCandidate_update_ne (db : DB) (pk pk' : Nat)
    (f : Candidate → Candidate) (h : pk' ≠ pk) :
    getCandidate (updateCandidate db pk f) pk' = getCandidate db pk' := by
  simp only [getCandidate, updateCandidate, find?_map_key_ne _ _ _ _ h]

theorem getCandidate_some_mem (db : DB) (pk : Nat) (cand : Candidate)
    (hc : getCandidate db pk = some cand) :
    ∃ e ∈ db.candidates, e.1 = pk ∧ e.2 = cand := by
  unfold getCandidate at hc
  rcases Option.map_eq_some'.mp hc with ⟨e, hfind, hsnd⟩
  refine ⟨e, List.mem_of_find?_eq_some hfind, ?_, hsnd⟩
  have := List.find?_some hfind
  exact beq_iff_eq.mp this

-- ==========================================================
-- C2: a finalized candidate is immutable to all four stages
-- ==========================================================

/-- Invariant of all workflow-reachable states: a finalized candidate is
assigned to a committee (`chair_finalize` only ever locks candidates it
found through the `assigned_committee` filter, and no handler clears an
assignment). -/
def FinalizedAssigned (db : DB) : Prop :=
  ∀ e ∈ db.candidates,
    e.2.is_finalized = true → e.2.assigned_committee.isSome = true

instance (db : DB) : Decidable (FinalizedAssigned db) := by
  unfold FinalizedAssigned
  infer_instance

/-- C2: for every candidate with `finalized == true` (in a state where the
finalized-implies-assigned invariant holds, as in every state the workflow
produces), a call to the file-scoring, distribution, interview-scoring or
finalization handler targeting that candidate leaves the database — hence
the candidate, its interview scores and its final decision — unchanged. -/
theorem C2_finalized_immutable (db : DB) (pk : Nat) (cand : Candidate)
    (hinv : FinalizedAssigned db)
    (hc : getCandidate db pk = some cand)
    (hfin : cand.is_finalized = true) :
    (∀ caller user now action,
        (file_score_view db caller pk user now action).2 = db) ∧
    (∀ committee_id, (distribution_view db pk committee_id).2 = db) ∧
    (∀ com member raw notes,
        (committee_score db com pk member raw notes).2 = db) ∧
    (∀ com user now nominated reason,
        (chair_finalize db com pk user now nominated reason).2 = db) := by
  have hassigned : cand.assigned_committee.isSome = true := by
    rcases getCandidate_some_mem db pk cand hc with ⟨e, hmem, -, hsnd⟩
    have := hinv e hmem
    rw [hsnd] at this
    exact this hfin
  refine ⟨?_, ?_, ?_, ?_⟩
  · intro caller user now action
    cases caller with
    | supervisor opp =>
      simp only [file_score_view, fs_lookup, hc, Option.some_bind]
      split
      · rfl
      · next cand0 heqc =>
        have hcc : cand0 = cand := by
          by_cases hbc : (cand.opportunity == opp) = true
          · rw [if_pos hbc] at heqc; exact (Option.some.inj heqc).symm
          · rw [if_neg hbc] at heqc; cases heqc
        subst hcc
        simp [hfin]
    | chair com =>
      simp only [file_score_view, fs_lookup, hc, Option.some_bind]
      split
      · rfl
      · next cand0 heqc =>
        have hcc : cand0 = cand := by
          by_cases hbc : (cand.assigned_committee == some com) = true
          · rw [if_pos hbc] at heqc; exact (Option.some.inj heqc).symm
          · rw [if_neg hbc] at heqc; cases heqc
        subst hcc
        simp [hfin]
  · intro committee_id
    simp only [distribution_view]
    cases hopp : first_active_opportunity db with
    | none => rfl
    | some opp =>
      simp only [hc, Option.some_bind]
      split
      · rfl
      · next cand0 heqc =>
        have hcc : cand0 = cand := by
          by_cases hbc : (cand.opportunity == opp) = true
          · rw [if_pos hbc] at heqc; exact (Option.some.inj heqc).symm
          · rw [if_neg hbc] at heqc; cases heqc
        subst hcc
        split
        · rfl
        · split_ifs <;> rfl
  · intro com member raw notes
    simp only [committee_score, hc, Option.some_bind]
    split
    · rfl
    · next cand0 heqc =>
      have hcc : cand0 = cand := by
        by_cases hbc : (cand.assigned_committee == some com) = true
        · rw [if_pos hbc] at heqc; exact (Option.some.inj heqc).symm
        · rw [if_neg hbc] at heqc; cases heqc
      subst hcc
      simp [hfin]
  · intro com user now nominated reason
    simp only [chair_finalize, hc, Option.some_bind]
    split
    · rfl
    · next cand0 heqc =>
      have hcc : cand0 = cand := by
        by_cases hbc : (cand.assigned_committee == some com) = true
        · rw [if_pos hbc] at heqc; exact (Option.some.inj heqc).symm
        · rw [if_neg hbc] at heqc; cases heqc
      subst hcc
      simp [hfin]

/-- A finalized, assigned candidate in a concrete database. -/
def exCandFinal : Candidate :=
  { exCandBase with file_score := some 35, is_finalized := true,
                    finalized_by := some 9, finalized_at := some 100 }

def exDB2 : DB :=
  { exDB1 with candidates := [(1, exCandFinal)],
               final_decisions :=
                 [{ committee := 1, candidate := 1, is_nominated := true,
                    reason := "", final_score_value := 35,
                    submitted_by := some 9 }] }

/-- Witness for C2: in `exDB2` candidate 1 is finalized, and all four
handlers leave the database untouched. -/
theorem C2_finalized_immutable_witness :
    FinalizedAssigned exDB2 ∧
    (file_score_view exDB2 (FsCaller.supervisor 1) 1 5 7
        (FsAction.score (some 20))).2 = exDB2 ∧
    (distribution_view exDB2 1 2).2 = exDB2 ∧
    (committee_score exDB2 1 1 7 (some 20) "").2 = exDB2 ∧
    (chair_finalize exDB2 1 1 9 100 true "").2 = exDB2 := by
  have h := C2_finalized_immutable exDB2 1 exCandFinal (by decide) rfl rfl
  exact ⟨by decide, h.1 _ _ _ _, h.2.1 _, h.2.2.1 _ _ _ _, h.2.2.2 _ _ _ _ _⟩

-- ==========================================================
-- C1: guards of chair_finalize
-- ==========================================================

/-- C1 counterexample: in `exDB1` candidate 1 has no file score and zero
interview scores, yet a finalize POST succeeds: a FinalDecision row (with
score snapshot 0) is written and the finalized flag is set, where the
claim demands a rejection with no mutation. -/
theorem C1_counterexample :
    (getCandidate exDB1 1).map (fun c => c.file_score) = some none ∧
    (interview_scores_for_committee exDB1 1 1).length = 0 ∧
    (getCandidate exDB1 1).map (fun c => c.is_finalized) = some false ∧
    (chair_finalize exDB1 1 1 9 100 true "").1 = Res.ok msgFinalizeDone ∧
    (getCandidate (chair_finalize exDB1 1 1 9 100 true "").2 1).map
        (fun c => c.is_finalized) = some true ∧
    (chair_finalize exDB1 1 1 9 100 true "").2.final_decisions =
      [{ committee := 1, candidate := 1, is_nominated := true, reason := "",
         final_score_value := 0, submitted_by := some 9 }] :=
  ⟨rfl, rfl, rfl, rfl, rfl, rfl⟩

/-- The decision upsert succeeds whenever no decision row for the
candidate lives under another committee, and the resulting list carries a
row for this (committee, candidate) with the given score snapshot and
submitter. -/
theorem fd_upsert_ok (l : List FinalDecision) (com pk : Nat)
    (nominated : Bool) (reason : String) (total : ℚ) (user : Nat)
    (hnoconf : ∀ d ∈ l, d.candidate = pk → d.committee = com) :
    ∃ fds, fd_upsert l com pk nominated reason total user = some fds ∧
      ∃ d ∈ fds, d.committee = com ∧ d.candidate = pk ∧
        d.final_score_value = total ∧ d.submitted_by = some user := by
  by_cases hA : (l.any (fun d => d.committee == com && d.candidate == pk)) = true
  · rcases List.any_eq_true.mp hA with ⟨d0, hd0mem, hd0⟩
    have h12 : (d0.committee == com) = true ∧ (d0.candidate == pk) = true := by
      simpa using hd0
    have hEq : fd_upsert l com pk nominated reason total user
        = some (l.map (fun d =>
            if (d.committee == com && d.candidate == pk) = true then
              { d with is_nominated := nominated, reason := reason,
                       final_score_value := total, submitted_by := some user }
            else d)) := by
      unfold fd_upsert
      rw [if_pos hA]
    refine ⟨_, hEq, ?_⟩
    have hmem := List.mem_map_of_mem (fun d =>
        if (d.committee == com && d.candidate == pk) = true then
          { d with is_nominated := nominated, reason := reason,
                   final_score_value := total, submitted_by := some user }
        else d) hd0mem
    simp only [hd0, if_true] at hmem
    exact ⟨_, hmem, beq_iff_eq.mp h12.1, beq_iff_eq.mp h12.2, rfl, rfl⟩
  · have hB : (l.any (fun d => d.candidate == pk)) = false := by
      rw [List.any_eq_false]
      intro d hd hp
      apply hA
      apply List.any_eq_true.mpr
      have hdc : d.candidate = pk := beq_iff_eq.mp hp
      exact ⟨d, hd, by simp [hdc, hnoconf d hd hdc]⟩
    have hEq : fd_upsert l com pk nominated reason total user
        = some (l ++ [{ committee := com, candidate := pk,
                        is_nominated := nominated, reason := reason,
                        final_score_value := total,
                        submitted_by := some user }]) := by
      unfold fd_upsert
      rw [if_neg hA, if_neg (by simp [hB])]
    refine ⟨_, hEq, ?_⟩
    exact ⟨_, List.mem_append_right _ (List.mem_singleton.mpr rfl),
      rfl, rfl, rfl, rfl⟩

/-- Core success behavior of `chair_finalize` on an assigned, not yet
finalized candidate with no decision row under another committee: the
handler succeeds, sets the finalized flag and upserts the decision row
with the computed score snapshot. -/
theorem chair_finalize_success (db : DB) (com pk user now : Nat)
    (nominated : Bool) (reason : String) (cand : Candidate)
    (hc : getCandidate db pk = some cand)
    (hassigned : cand.assigned_committee = some com)
    (hfin : cand.is_finalized = false)
    (hnoconf : ∀ d ∈ db.final_decisions, d.candidate = pk → d.committee = com) :
    ∃ db', chair_finalize db com pk user now nominated reason
        = (Res.ok msgFinalizeDone, db') ∧
      (getCandidate db' pk).map (fun c => c.is_finalized) = some true ∧
      ∃ d ∈ db'.final_decisions, d.committee = com ∧ d.candidate = pk ∧
        d.final_score_value = final_score db pk cand com ∧
        d.submitted_by = some user := by
  rcases fd_upsert_ok db.final_decisions com pk nominated reason
      (final_score db pk cand com) user hnoconf with ⟨fds, hfds, d, hdmem, hdprops⟩
  have hrun : chair_finalize db com pk user now nominated reason
      = (Res.ok msgFinalizeDone,
         updateCandidate { db with final_decisions := fds } pk
           (fun c => { c with is_finalized := true,
                              finalized_by := some user,
                              finalized_at := some now })) := by
    simp [chair_finalize, hc, hassigned, hfin, hfds]
  refine ⟨_, hrun, ?_, ?_⟩
  · have h1 : getCandidate (updateCandidate { db with final_decisions := fds } pk
        (fun c => { c with is_finalized := true, finalized_by := some user,
                           finalized_at := some now })) pk
        = (getCandidate db pk).map (fun c =>
            { c with is_finalized := true, finalized_by := some user,
                     finalized_at := some now }) :=
      getCandidate_update_self _ pk _
    rw [h1, hc]
    rfl
  · exact ⟨d, hdmem, hdprops⟩

/-- C1 (amended): `chair_finalize` does not guard on file score presence
or interview count.  For a candidate assigned to the chair's committee:
an already finalized candidate is rejected with an informational message
and no mutation; any other candidate — also one with a missing file score
or an interview count ≠ 3 — is finalized: a FinalDecision row with the
computed score snapshot is upserted and the finalized flag is set
(provided no decision row for the candidate exists under another
committee, which would abort with a database integrity error). -/
theorem C1_amended_finalize (db : DB) (com pk user now : Nat)
    (nominated : Bool) (reason : String) (cand : Candidate)
    (hc : getCandidate db pk = some cand)
    (hassigned : cand.assigned_committee = some com) :
    (cand.is_finalized = true →
      chair_finalize db com pk user now nominated reason
        = (Res.info msgAlreadyFinalized, db)) ∧
    (cand.is_finalized = false →
      (∀ d ∈ db.final_decisions, d.candidate = pk → d.committee = com) →
      ∃ db', chair_finalize db com pk user now nominated reason
          = (Res.ok msgFinalizeDone, db') ∧
        (getCandidate db' pk).map (fun c => c.is_finalized) = some true ∧
        ∃ d ∈ db'.final_decisions, d.committee = com ∧ d.candidate = pk ∧
          d.final_score_value = final_score db pk cand com ∧
          d.submitted_by = some user) := by
  constructor
  · intro hfin
    simp [chair_finalize, hc, hassigned, hfin]
  · intro hfin hnoconf
    exact chair_finalize_success db com pk user now nominated reason cand
      hc hassigned hfin hnoconf

/-- Witness for the amended C1: finalizing the unscored, uninterviewed
candidate of `exDB1` succeeds and records a decision. -/
theorem C1_amended_finalize_witness :
    ∃ db', chair_finalize exDB1 1 1 9 100 true ""
        = (Res.ok msgFinalizeDone, db') ∧
      (getCandidate db' 1).map (fun c => c.is_finalized) = some true ∧
      ∃ d ∈ db'.final_decisions, d.committee = 1 ∧ d.candidate = 1 ∧
        d.final_score_value = final_score exDB1 1 exCandBase 1 ∧
        d.submitted_by = some 9 :=
  (C1_amended_finalize exDB1 1 1 9 100 true "" exCandBase rfl rfl).2 rfl
    (by intro d hd; cases hd)

-- ==========================================================
-- C3: all-or-nothing interview average
-- ==========================================================

/-- The `unique_together (committee, candidate, member)` constraint of
InterviewScore as a database invariant: no two rows share all three keys. -/
def ScoresUnique (db : DB) : Prop :=
  db.interview_scores.Pairwise (fun a b =>
    ¬(a.committee = b.committee ∧ a.candidate = b.candidate ∧ a.member = b.member))

instance (db : DB) : Decidable (ScoresUnique db) := by
  unfold ScoresUnique
  exact List.instDecidablePairwise _

/-- C3: for every (committee, candidate) pair, `interview_avg` is nonzero
only when exactly 3 interview-score rows exist for the pair — rows which,
under the uniqueness constraint, belong to 3 distinct members; with any
other count the average is 0, never a partial average. -/
theorem C3_interview_avg_all_or_nothing (db : DB) (pk com : Nat)
    (hu : ScoresUnique db) :
    ((interview_scores_for_committee db pk com).length ≠ 3 →
      interview_avg db pk com = 0) ∧
    (interview_avg db pk com ≠ 0 →
      (interview_scores_for_committee db pk com).length = 3 ∧
      ((db.interview_scores.filter
          (fun s => s.candidate == pk && s.committee == com)).map
            (fun s => s.member)).Nodup) := by
  constructor
  · intro h
    unfold interview_avg
    simp [h]
  · intro h
    have hlen : (interview_scores_for_committee db pk com).length = 3 := by
      by_contra hne
      apply h
      unfold interview_avg
      simp [hne]
    refine ⟨hlen, ?_⟩
    have hsub : (db.interview_scores.filter
        (fun s => s.candidate == pk && s.committee == com)).Pairwise
          (fun a b =>
            ¬(a.committee = b.committee ∧ a.candidate = b.candidate ∧
              a.member = b.member)) :=
      List.Pairwise.sublist (List.filter_sublist _) hu
    have hmem : (db.interview_scores.filter
        (fun s => s.candidate == pk && s.committee == com)).Pairwise
          (fun a b => a.member ≠ b.member) := by
      refine hsub.imp_of_mem ?_
      intro a b ha hb hr hm
      have hai := List.mem_filter.mp ha
      have hbi := List.mem_filter.mp hb
      have ha2 : a.candidate = pk ∧ a.committee = com := by
        constructor <;> [exact beq_iff_eq.mp (Bool.and_elim_left hai.2);
          exact beq_iff_eq.mp (Bool.and_elim_right hai.2)]
      have hb2 : b.candidate = pk ∧ b.committee = com := by
        constructor <;> [exact beq_iff_eq.mp (Bool.and_elim_left hbi.2);
          exact beq_iff_eq.mp (Bool.and_elim_right hbi.2)]
      exact hr ⟨ha2.2.trans hb2.2.symm, ha2.1.trans hb2.1.symm, hm⟩
    exact List.Pairwise.map (fun s : InterviewScore => s.member)
      (fun a b hab => hab) hmem

/-- Two scores of 40 and 45 by two distinct members. -/
def exDB3 : DB :=
  { exDB1 with interview_scores := [exScore 7 40, exScore 8 45] }

/-- Witness for C3: with only 2 scores (40 and 45) the average is
reported as 0, not 42.5. -/
theorem C3_interview_avg_witness :
    ScoresUnique exDB3 ∧
    (interview_scores_for_committee exDB3 1 1).length = 2 ∧
    interview_avg exDB3 1 1 = 0 := by
  refine ⟨by decide, rfl, ?_⟩
  exact (C3_interview_avg_all_or_nothing exDB3 1 1 (by decide)).1 (by decide)

-- ==========================================================
-- C4: final score formula
-- ==========================================================

/-- C4: the computed final score is 0 for a candidate flagged ineligible,
and file score plus interview average for an eligible candidate with a
recorded file score. -/
theorem C4_final_score_formula (db : DB) (pk : Nat) (c : Candidate)
    (com : Nat) :
    (c.file_not_eligible = true → final_score db pk c com = 0) ∧
    (c.file_not_eligible = false → ∀ s : ℚ, c.file_score = some s →
      final_score db pk c com = s + interview_avg db pk com) := by
  constructor
  · intro h
    simp [final_score, h]
  · intro h s hs
    simp [final_score, h, hs]

/-- Candidate 1 with file score 35 and three interview scores 30, 35, 40
in committee 1. -/
def exDB4 : DB :=
  { exDB1 with
      candidates := [(1, { exCandBase with file_score := some 35 })],
      interview_scores := [exScore 7 30, exScore 8 35, exScore 9 40] }

/-- Witness for C4: file score 35 with interview scores 30, 35, 40 gives
average 35 and final score 70. -/
theorem C4_final_score_witness :
    interview_avg exDB4 1 1 = 35 ∧
    final_score exDB4 1 { exCandBase with file_score := some 35 } 1 = 70 := by
  have havg : interview_avg exDB4 1 1 = 35 := by
    norm_num [interview_avg, interview_scores_for_committee, exDB4, exScore,
      exDB1]
  refine ⟨havg, ?_⟩
  have h := (C4_final_score_formula exDB4 1
      { exCandBase with file_score := some 35 } 1).2 rfl 35 rfl
  rw [h, havg]
  norm_num

-- ==========================================================
-- C6: effects of file scoring
-- ==========================================================

/-- C6: on a non-finalized candidate visible to the caller, an invalid
score (non-numeric — the `none` raw value — or out of [0,50]) is a
validation failure with no mutation; a valid score submission sets the
file score, clears the ineligibility flag and its reason, and stamps the
reviewer and the time; the not-eligible action sets the flag and reason,
clears the file score, and stamps the reviewer and the time. -/
theorem C6_file_score_effects (db : DB) (caller : FsCaller) (pk : Nat)
    (user now : Nat) (cand : Candidate)
    (hl : fs_lookup db pk caller = some cand)
    (hfin : cand.is_finalized = false) :
    (∀ raw, parse_decimal_0_50 raw = none →
      file_score_view db caller pk user now (FsAction.score raw)
        = (Res.err msgBadScore, db)) ∧
    (∀ x : ℚ, (x < 0 ∨ x > 50) → parse_decimal_0_50 (some x) = none) ∧
    (parse_decimal_0_50 none = none) ∧
    (∀ v : ℚ, 0 ≤ v → v ≤ 50 →
      file_score_view db caller pk user now (FsAction.score (some v))
        = (Res.ok msgFileSaved,
           updateCandidate db pk (fun c =>
             { c with file_score := some v, file_not_eligible := false,
                      file_not_eligible_reason := "",
                      file_reviewer := some user,
                      file_scored_at := some now }))) ∧
    (∀ reason,
      file_score_view db caller pk user now (FsAction.not_eligible reason)
        = (Res.ok msgFileSaved,
           updateCandidate db pk (fun c =>
             { c with file_not_eligible := true,
                      file_not_eligible_reason := reason,
                      file_score := none,
                      file_reviewer := some user,
                      file_scored_at := some now }))) := by
  refine ⟨?_, ?_, rfl, ?_, ?_⟩
  · intro raw hraw
    simp [file_score_view, hl, hfin, hraw]
  · intro x hx
    simp only [parse_decimal_0_50]
    rw [if_pos hx]
  · intro v h0 h50
    have hp : parse_decimal_0_50 (some v) = some v := by
      simp only [parse_decimal_0_50]
      rw [if_neg (by push_neg; exact ⟨h0, h50⟩)]
    simp [file_score_view, hl, hfin, hp]
  · intro reason
    simp [file_score_view, hl, hfin]

/-- Witness for C6: on `exDB1`, an out-of-range score of 60 is rejected
without mutation, a score of 42 is recorded (clearing ineligibility), and
the not-eligible action sets the flag (clearing the score). -/
theorem C6_file_score_effects_witness :
    fs_lookup exDB1 1 (FsCaller.supervisor 1) = some exCandBase ∧
    parse_decimal_0_50 (some 60) = none ∧
    file_score_view exDB1 (FsCaller.supervisor 1) 1 5 7
        (FsAction.score (some 60)) = (Res.err msgBadScore, exDB1) ∧
    file_score_view exDB1 (FsCaller.supervisor 1) 1 5 7
        (FsAction.score (some 42))
      = (Res.ok msgFileSaved,
         updateCandidate exDB1 1 (fun c =>
           { c with file_score := some 42, file_not_eligible := false,
                    file_not_eligible_reason := "",
                    file_reviewer := some 5, file_scored_at := some 7 })) ∧
    file_score_view exDB1 (FsCaller.supervisor 1) 1 5 7
        (FsAction.not_eligible "غير مستوفٍ")
      = (Res.ok msgFileSaved,
         updateCandidate exDB1 1 (fun c =>
           { c with file_not_eligible := true,
                    file_not_eligible_reason := "غير مستوفٍ",
                    file_score := none,
                    file_reviewer := some 5, file_scored_at := some 7 })) := by
  have h := C6_file_score_effects exDB1 (FsCaller.supervisor 1) 1 5 7
    exCandBase rfl rfl
  have h60 : parse_decimal_0_50 (some 60) = none :=
    h.2.1 60 (Or.inr (by norm_num))
  exact ⟨rfl, h60, h.1 (some 60) h60,
    h.2.2.2.1 42 (by norm_num) (by norm_num), h.2.2.2.2 _⟩

-- ==========================================================
-- C5: monotonicity of the committee assignment
-- ==========================================================

/-- A spreadsheet row carrying the national id of the candidate already
stored in `exDB1`. -/
def exRow5 : ImportRow :=
  { national_id := "1111111111", imported := exImported }

/-- C5 counterexample: candidate 1 of `exDB1` is assigned to committee 1,
yet re-importing its row with the assign flag and committee 2 overwrites
the assignment to committee 2 — the CLI import is not monotonic. -/
theorem C5_counterexample :
    (getCandidate exDB1 1).map (fun c => c.assigned_committee)
      = some (some 1) ∧
    (getCandidate (excel_import_row exDB1 1 (some 2) true exRow5) 1).map
        (fun c => c.assigned_committee) = some (some 2) :=
  ⟨rfl, rfl⟩

/-- An update that does not touch the assignment leaves the candidate's
assigned-committee projection unchanged. -/
theorem getCandidate_assigned_update (db : DB) (pk : Nat)
    (f : Candidate → Candidate)
    (hf : ∀ c, (f c).assigned_committee = c.assigned_committee) :
    (getCandidate (updateCandidate db pk f) pk).map
        (fun c => c.assigned_committee)
      = (getCandidate db pk).map (fun c => c.assigned_committee) := by
  rw [getCandidate_update_self, Option.map_map]
  cases getCandidate db pk <;> simp [hf]

/-- Projection form of a successful lookup. -/
theorem assigned_proj_of_get (db0 : DB) (pk : Nat) (cand : Candidate)
    (h : getCandidate db0 pk = some cand) :
    (getCandidate db0 pk).map (fun c => c.assigned_committee)
      = some cand.assigned_committee := by
  rw [h]
  rfl

/-- Updating the looked-up candidate with an assignment-preserving map
keeps the assigned-committee projection. -/
theorem assigned_proj_update (db0 : DB) (pk : Nat) (cand : Candidate)
    (f : Candidate → Candidate)
    (hf : ∀ c, (f c).assigned_committee = c.assigned_committee)
    (h : getCandidate db0 pk = some cand) :
    (getCandidate (updateCandidate db0 pk f) pk).map
        (fun c => c.assigned_committee) = some cand.assigned_committee := by
  rw [getCandidate_assigned_update db0 pk f hf, h]
  rfl

/-- Updating a different key keeps the assigned-committee projection. -/
theorem assigned_proj_update_ne (db0 : DB) (k pk : Nat) (cand : Candidate)
    (f : Candidate → Candidate) (hne : pk ≠ k)
    (h : getCandidate db0 pk = some cand) :
    (getCandidate (updateCandidate db0 k f) pk).map
        (fun c => c.assigned_committee) = some cand.assigned_committee := by
  rw [getCandidate_update_ne db0 k pk f hne, h]
  rfl

/-- Overwriting the assignment of the looked-up candidate yields exactly
the written value. -/
theorem assigned_proj_update_set (db0 : DB) (pk : Nat) (cand : Candidate)
    (v : Option Nat) (h : getCandidate db0 pk = some cand) :
    (getCandidate (updateCandidate db0 pk
        (fun c => { c with assigned_committee := v })) pk).map
      (fun c => c.assigned_committee) = some v := by
  rw [getCandidate_update_self, h]
  rfl

/-- C5 (amended): once a candidate is assigned, the four workflow
handlers never change its assignment (a repeated distribution attempt is
an informational no-op), and the CLI import never clears it — but the
CLI import run with the assign flag and a committee does overwrite an
existing assignment with that committee. -/
theorem C5_amended_assignment_monotonic (db : DB) (pk : Nat)
    (cand : Candidate)
    (hc : getCandidate db pk = some cand)
    (ha : cand.assigned_committee.isSome = true) :
    (∀ caller user now action,
      (getCandidate (file_score_view db caller pk user now action).2 pk).map
        (fun c => c.assigned_committee) = some cand.assigned_committee) ∧
    (∀ com member raw notes,
      (getCandidate (committee_score db com pk member raw notes).2 pk).map
        (fun c => c.assigned_committee) = some cand.assigned_committee) ∧
    (∀ com user now nominated reason,
      (getCandidate (chair_finalize db com pk user now nominated reason).2
          pk).map
        (fun c => c.assigned_committee) = some cand.assigned_committee) ∧
    (∀ cand_id committee_id,
      (getCandidate (distribution_view db cand_id committee_id).2 pk).map
        (fun c => c.assigned_committee) = some cand.assigned_committee) ∧
    (∀ opp comid assign row,
      (getCandidate (excel_import_row db opp comid assign row) pk).map
          (fun c => c.assigned_committee) = some cand.assigned_committee ∨
        (assign = true ∧ comid.isSome = true ∧
          (getCandidate (excel_import_row db opp comid assign row) pk).map
            (fun c => c.assigned_committee) = some comid)) := by
  refine ⟨?_, ?_, ?_, ?_, ?_⟩
  · intro caller user now action
    simp only [file_score_view]
    split
    · exact assigned_proj_of_get db pk cand hc
    · split
      · exact assigned_proj_of_get db pk cand hc
      · split
        · exact assigned_proj_update db pk cand _ (fun c => rfl) hc
        · split
          · exact assigned_proj_of_get db pk cand hc
          · exact assigned_proj_update db pk cand _ (fun c => rfl) hc
  · intro com member raw notes
    simp only [committee_score]
    split
    · exact assigned_proj_of_get db pk cand hc
    · split
      · exact assigned_proj_of_get db pk cand hc
      · split
        · exact assigned_proj_of_get db pk cand hc
        · exact assigned_proj_of_get _ pk cand hc
  · intro com user now nominated reason
    simp only [chair_finalize]
    split
    · exact assigned_proj_of_get db pk cand hc
    · split
      · exact assigned_proj_of_get db pk cand hc
      · split
        · exact assigned_proj_of_get db pk cand hc
        · exact assigned_proj_update _ pk cand _ (fun c => rfl) hc
  · intro cand_id committee_id
    by_cases hpk : cand_id = pk
    · subst hpk
      simp only [distribution_view]
      cases hopp : first_active_opportunity db with
      | none => exact assigned_proj_of_get db cand_id cand hc
      | some opp =>
        simp only [hc, Option.some_bind]
        split
        · exact assigned_proj_of_get db cand_id cand hc
        · next cand0 heqc =>
          have hcc : cand0 = cand := by
            by_cases hbc : (cand.opportunity == opp) = true
            · rw [if_pos hbc] at heqc
              exact (Option.some.inj heqc).symm
            · rw [if_neg hbc] at heqc
              cases heqc
          subst hcc
          split
          · exact assigned_proj_of_get db cand_id cand0 hc
          · split_ifs <;> exact assigned_proj_of_get db cand_id cand0 hc
    · simp only [distribution_view]
      split
      · exact assigned_proj_of_get db pk cand hc
      · split
        · exact assigned_proj_of_get db pk cand hc
        · split
          · exact assigned_proj_of_get db pk cand hc
          · split
            · exact assigned_proj_of_get db pk cand hc
            · split
              · exact assigned_proj_of_get db pk cand hc
              · exact assigned_proj_update_ne db cand_id pk cand _
                  (fun hh => hpk hh.symm) hc
  · intro opp comid assign row
    simp only [excel_import_row]
    split
    · exact Or.inl (assigned_proj_of_get db pk cand hc)
    · split
      · next e hfound =>
        by_cases hca : (comid.isSome && assign) = true
        · rw [if_pos hca]
          have hand : comid.isSome = true ∧ assign = true := by
            simpa [Bool.and_eq_true_iff] using hca
          by_cases hpk : e.1 = pk
          · subst hpk
            right
            have h1 : getCandidate (updateCandidate db e.1
                (fun c => { c with imported := row.imported })) e.1
                = some { cand with imported := row.imported } := by
              rw [getCandidate_update_self, hc]
              rfl
            exact ⟨hand.2, hand.1,
              assigned_proj_update_set _ e.1 _ comid h1⟩
          · left
            have h1 : getCandidate (updateCandidate db e.1
                (fun c => { c with imported := row.imported })) pk
                = some cand := by
              rw [getCandidate_update_ne db e.1 pk _ (fun hh => hpk hh.symm)]
              exact hc
            exact assigned_proj_update_ne _ e.1 pk cand _
              (fun hh => hpk hh.symm) h1
        · rw [if_neg hca]
          left
          by_cases hpk : e.1 = pk
          · subst hpk
            exact assigned_proj_update db e.1 cand
              (fun c => { c with imported := row.imported })
              (fun c => rfl) hc
          · exact assigned_proj_update_ne db e.1 pk cand
              (fun c => { c with imported := row.imported })
              (fun hh => hpk hh.symm) hc
      · left
        rcases Option.map_eq_some'.mp hc with ⟨e, hfind, hsnd⟩
        unfold getCandidate
        simp only [List.find?_append, hfind, Option.or_some,
          Option.map_some']
        rw [hsnd]

/-- Witness for the amended C5: on `exDB1`, the file-scoring, interview,
finalize and repeated-distribution handlers leave candidate 1 assigned to
committee 1, and the import row with the assign flag moves it to
committee 2. -/
theorem C5_amended_assignment_monotonic_witness :
    (getCandidate (file_score_view exDB1 (FsCaller.supervisor 1) 1 5 7
        (FsAction.score (some 42))).2 1).map
      (fun c => c.assigned_committee) = some (some 1) ∧
    (getCandidate (committee_score exDB1 1 1 7 (some 20) "").2 1).map
      (fun c => c.assigned_committee) = some (some 1) ∧
    (getCandidate (chair_finalize exDB1 1 1 9 100 true "").2 1).map
      (fun c => c.assigned_committee) = some (some 1) ∧
    (getCandidate (distribution_view exDB1 1 2).2 1).map
      (fun c => c.assigned_committee) = some (some 1) ∧
    ((getCandidate (excel_import_row exDB1 1 (some 2) true exRow5) 1).map
        (fun c => c.assigned_committee) = some (some 1) ∨
      (true = true ∧ (some 2 : Option Nat).isSome = true ∧
        (getCandidate (excel_import_row exDB1 1 (some 2) true exRow5) 1).map
          (fun c => c.assigned_committee) = some (some 2))) := by
  have h := C5_amended_assignment_monotonic exDB1 1 exCandBase rfl rfl
  exact ⟨h.1 _ _ _ _, h.2.1 _ _ _ _, h.2.2.1 _ _ _ _ _, h.2.2.2.1 _ _,
    h.2.2.2.2 1 (some 2) true exRow5⟩

-- ==========================================================
-- C8: finalizing with a null file score
-- ==========================================================

/-- C8: for a candidate with no recorded file score, not flagged
ineligible and with exactly 3 interview scores, the computed final score
is 0, and a finalize on it succeeds, recording a FinalDecision whose
score snapshot is 0. -/
theorem C8_null_file_score_finalizes_zero (db : DB) (com pk user now : Nat)
    (nominated : Bool) (reason : String) (cand : Candidate)
    (hc : getCandidate db pk = some cand)
    (hassigned : cand.assigned_committee = some com)
    (hfs : cand.file_score = none)
    (hine : cand.file_not_eligible = false)
    (h3 : (interview_scores_for_committee db pk com).length = 3)
    (hfin : cand.is_finalized = false)
    (hnoconf : ∀ d ∈ db.final_decisions, d.candidate = pk → d.committee = com) :
    final_score db pk cand com = 0 ∧
    ∃ db', chair_finalize db com pk user now nominated reason
        = (Res.ok msgFinalizeDone, db') ∧
      (getCandidate db' pk).map (fun c => c.is_finalized) = some true ∧
      ∃ d ∈ db'.final_decisions, d.committee = com ∧ d.candidate = pk ∧
        d.final_score_value = 0 := by
  have hzero : final_score db pk cand com = 0 := by
    simp [final_score, hine, hfs]
  refine ⟨hzero, ?_⟩
  rcases chair_finalize_success db com pk user now nominated reason cand
      hc hassigned hfin hnoconf with ⟨db', hrun, hflag, d, hdmem, hcom, hcand, hval, hsub⟩
  exact ⟨db', hrun, hflag, d, hdmem, hcom, hcand, by rw [hval, hzero]⟩

/-- Candidate 1 of `exDB1` (no file score, eligible, unfinalized) with
three interview scores. -/
def exDB8 : DB :=
  { exDB1 with interview_scores := [exScore 7 30, exScore 8 35, exScore 9 40] }

/-- Witness for C8: with 3 interview scores but a null file score the
final score is 0 and the finalize succeeds with snapshot 0. -/
theorem C8_null_file_score_witness :
    (interview_scores_for_committee exDB8 1 1).length = 3 ∧
    final_score exDB8 1 exCandBase 1 = 0 ∧
    ∃ db', chair_finalize exDB8 1 1 9 100 true ""
        = (Res.ok msgFinalizeDone, db') ∧
      (getCandidate db' 1).map (fun c => c.is_finalized) = some true ∧
      ∃ d ∈ db'.final_decisions, d.committee = 1 ∧ d.candidate = 1 ∧
        d.final_score_value = 0 := by
  have h := C8_null_file_score_finalizes_zero exDB8 1 1 9 100 true ""
    exCandBase rfl rfl rfl rfl rfl rfl (by intro d hd; cases hd)
  exact ⟨rfl, h.1, h.2⟩

-- ==========================================================
-- C9: at most one FinalDecision per candidate
-- ==========================================================

/-- The `OneToOneField` on `FinalDecision.candidate` as a database
invariant: no two decision rows share a candidate, across all
committees. -/
def FDUniquePerCandidate (db : DB) : Prop :=
  db.final_decisions.Pairwise (fun a b => a.candidate ≠ b.candidate)

instance (db : DB) : Decidable (FDUniquePerCandidate db) := by
  unfold FDUniquePerCandidate
  exact List.instDecidablePairwise _

/-- In a candidate-unique decision list, two rows with the same candidate
are the same row. -/
theorem pairwise_ne_unique {l : List FinalDecision}
    (hu : l.Pairwise (fun a b => a.candidate ≠ b.candidate))
    {a b : FinalDecision} (ha : a ∈ l) (hb : b ∈ l)
    (hcand : a.candidate = b.candidate) : a = b := by
  induction l with
  | nil => cases ha
  | cons x t ih =>
    rcases List.pairwise_cons.mp hu with ⟨hx, ht⟩
    cases ha with
    | head =>
      cases hb with
      | head => rfl
      | tail _ hb' => exact absurd hcand (hx b hb')
    | tail _ ha' =>
      cases hb with
      | head => exact absurd hcand.symm (hx a ha')
      | tail _ hb' => exact ih ht ha' hb'

/-- The decision upsert never duplicates a candidate: candidate
uniqueness is preserved. -/
theorem fd_upsert_preserves_unique (l : List FinalDecision) (com pk : Nat)
    (nominated : Bool) (reason : String) (total : ℚ) (user : Nat)
    (fds : List FinalDecision)
    (hu : l.Pairwise (fun a b => a.candidate ≠ b.candidate))
    (h : fd_upsert l com pk nominated reason total user = some fds) :
    fds.Pairwise (fun a b => a.candidate ≠ b.candidate) := by
  unfold fd_upsert at h
  by_cases hA : (l.any (fun d => d.committee == com && d.candidate == pk)) = true
  · rw [if_pos hA] at h
    cases h
    rw [List.pairwise_map]
    refine hu.imp ?_
    intro a b hab
    by_cases hca : (a.committee == com && a.candidate == pk) = true <;>
      by_cases hcb : (b.committee == com && b.candidate == pk) = true <;>
        simp [hca, hcb, hab]
  · rw [if_neg hA] at h
    by_cases hB : (l.any (fun d => d.candidate == pk)) = true
    · rw [if_pos hB] at h
      cases h
    · rw [if_neg hB] at h
      cases h
      rw [List.pairwise_append]
      refine ⟨hu, List.pairwise_singleton _ _, ?_⟩
      intro a ha b hb
      have hbv := List.mem_singleton.mp hb
      subst hbv
      intro hacand
      have : (l.any (fun d => d.candidate == pk)) = true :=
        List.any_eq_true.mpr ⟨a, ha, beq_iff_eq.mpr hacand⟩
      exact hB this

/-- C9: the three other handlers never touch the decision table; the
finalize handler preserves at-most-one-decision-per-candidate; and a
finalize under a different committee for a candidate that already has a
decision row aborts (integrity error) with the database unchanged — it
never creates a second row. -/
theorem C9_one_decision_per_candidate (db : DB)
    (hu : FDUniquePerCandidate db) :
    (∀ caller pk user now action,
      (file_score_view db caller pk user now action).2.final_decisions
        = db.final_decisions) ∧
    (∀ cand_id committee_id,
      (distribution_view db cand_id committee_id).2.final_decisions
        = db.final_decisions) ∧
    (∀ com pk member raw notes,
      (committee_score db com pk member raw notes).2.final_decisions
        = db.final_decisions) ∧
    (∀ com pk user now nominated reason,
      FDUniquePerCandidate
        (chair_finalize db com pk user now nominated reason).2) ∧
    (∀ com pk user now nominated reason d, d ∈ db.final_decisions →
      d.candidate = pk → d.committee ≠ com →
      (chair_finalize db com pk user now nominated reason).2 = db) := by
  refine ⟨?_, ?_, ?_, ?_, ?_⟩
  · intro caller pk user now action
    simp only [file_score_view]
    split
    · rfl
    · split
      · rfl
      · split
        · rfl
        · split <;> rfl
  · intro cand_id committee_id
    simp only [distribution_view]
    split
    · rfl
    · split
      · rfl
      · split
        · rfl
        · split
          · rfl
          · split
            · rfl
            · rfl
  · intro com pk member raw notes
    simp only [committee_score]
    split
    · rfl
    · split
      · rfl
      · split <;> rfl
  · intro com pk user now nominated reason
    simp only [chair_finalize]
    split
    · exact hu
    · split
      · exact hu
      · split
        · exact hu
        · next fds hfds =>
          have : fds.Pairwise (fun a b => a.candidate ≠ b.candidate) :=
            fd_upsert_preserves_unique db.final_decisions com pk nominated
              reason _ user fds hu hfds
          exact this
  · intro com pk user now nominated reason d hdmem hdc hne
    simp only [chair_finalize]
    split
    · rfl
    · next cand0 heqc =>
      split
      · rfl
      · next hfin =>
        have hA : (db.final_decisions.any
            (fun d0 => d0.committee == com && d0.candidate == pk)) = false := by
          rw [List.any_eq_false]
          intro d0 hd0 hp
          have h12 : (d0.committee == com) = true ∧ (d0.candidate == pk) = true := by
            simpa using hp
          have heqd : d0 = d := pairwise_ne_unique hu hd0 hdmem
            ((beq_iff_eq.mp h12.2).trans hdc.symm)
          exact hne (by rw [← heqd]; exact beq_iff_eq.mp h12.1)
        have hB : (db.final_decisions.any (fun d0 => d0.candidate == pk)) = true :=
          List.any_eq_true.mpr ⟨d, hdmem, beq_iff_eq.mpr hdc⟩
        have hnone : fd_upsert db.final_decisions com pk nominated reason
            (final_score db pk cand0 com) user = none := by
          unfold fd_upsert
          rw [if_neg (by simp [hA]), if_pos hB]
        rw [hnone]

/-- A candidate assigned to committee 2 that already carries a decision
row under committee 1. -/
def exFD9 : FinalDecision :=
  { committee := 1, candidate := 1, is_nominated := true, reason := "",
    final_score_value := 35, submitted_by := some 9 }

def exCand9 : Candidate :=
  { exCandBase with assigned_committee := some 2, file_score := some 35 }

def exDB9 : DB :=
  { exDB1 with candidates := [(1, exCand9)], final_decisions := [exFD9] }

/-- Witness for C9: finalizing candidate 1 under committee 2 while its
decision row lives under committee 1 leaves the database unchanged, and
the handlers preserve one-decision-per-candidate. -/
theorem C9_one_decision_per_candidate_witness :
    FDUniquePerCandidate exDB9 ∧
    (chair_finalize exDB9 2 1 9 100 true "").2 = exDB9 ∧
    FDUniquePerCandidate (chair_finalize exDB9 2 1 9 100 true "").2 ∧
    (committee_score exDB9 2 1 7 (some 20) "").2.final_decisions
      = exDB9.final_decisions := by
  have h := C9_one_decision_per_candidate exDB9 (by decide)
  exact ⟨by decide,
    h.2.2.2.2 2 1 9 100 true "" exFD9 (by decide) rfl (by decide),
    h.2.2.2.1 2 1 9 100 true "", h.2.2.1 2 1 7 (some 20) ""⟩

-- ==========================================================
-- C7: the authentication field bug
-- ==========================================================

/-- An active profile whose credentials are national id 1234567890 and
mobile last-4 1234. -/
def exProfile : MemberProfile :=
  { user := 1, national_id := "1234567890", mobile_last4 := "1234",
    role := "supervisor", opportunity := none, committee := none,
    is_active := true }

/-- C7 (code bug): the backend filters `MemberProfile` on the keyword
`last4`, which is not a model field (the field is `mobile_last4`), so
every authentication attempt with non-empty credentials raises a
FieldError and crashes the request — a wrong last-4 and a fully correct
credential pair alike — instead of failing with the generic
invalid-credentials message. -/
theorem C7_authentication_crashes :
    exProfile.mobile_last4 = "1234" ∧
    exProfile.is_active = true ∧
    memberProfileFields.contains "last4" = false ∧
    authenticate [exProfile] "1234567890" "9999" none
      = Except.error "FieldError" ∧
    authenticate [exProfile] "1234567890" "1234" none
      = Except.error "FieldError" ∧
    login_view [exProfile] "1234567890" "9999"
      = LoginResult.crash "FieldError" ∧
    login_view [exProfile] "1234567890" "1234"
      = LoginResult.crash "FieldError" :=
  ⟨rfl, rfl, rfl, rfl, rfl, rfl, rfl⟩

-- ==========================================================
-- C10: auto-created profiles are inactive supervisors
-- ==========================================================

/-- A stored profile for user 1 with credentials 55 / 9999, inactive as
the signal creates profiles. -/
def exInactiveProfile : MemberProfile :=
  { user := 1, national_id := "55", mobile_last4 := "9999",
    role := "supervisor", opportunity := none, committee := none,
    is_active := false }

/-- The same profile after an administrator explicitly activates it. -/
def exActivatedProfile : MemberProfile :=
  { exInactiveProfile with is_active := true }

/-- C10 counterexample: the signal does create an inactive profile, but
the claimed mechanism is dead and the claimed recovery does not exist:
authentication against the inactive profile fails with the `last4`
FieldError crash — the backend's inactive-profile rejection is never
reached — and after explicitly activating the profile the very same
correct credentials still crash instead of authenticating. -/
theorem C10_counterexample :
    (ensure_profile true none 1).map (fun p => p.is_active) = some false ∧
    authenticate [exInactiveProfile] "55" "9999" none
      = Except.error "FieldError" ∧
    authenticate [exActivatedProfile] "55" "9999" none
      = Except.error "FieldError" :=
  ⟨rfl, rfl, rfl⟩

/-- C10 (amended): on creation of a user without a profile, the signal
creates a MemberProfile with role supervisor, no committee (and no
opportunity) and `is_active = False`, and never duplicates an existing
profile.  Such a user cannot authenticate — but not through the
backend's inactive-profile rejection, which is unreachable: every
authentication attempt with non-empty credentials raises the `last4`
FieldError and crashes, for inactive and explicitly activated profiles
alike, so no authentication ever succeeds for anyone. -/
theorem C10_amended_profile_and_auth (u : Nat) :
    (∃ p, ensure_profile true none u = some p ∧ p.role = "supervisor" ∧
      p.committee = none ∧ p.opportunity = none ∧ p.is_active = false) ∧
    (∀ q, ensure_profile true (some q) u = none) ∧
    (∀ existing, ensure_profile false existing u = none) ∧
    (∀ (profiles : List MemberProfile) (nid l4 : String)
        (rr : Option String),
      (nid == "") = false → (l4 == "") = false →
      authenticate profiles nid l4 rr = Except.error "FieldError") ∧
    (∀ (profiles : List MemberProfile) (nid l4 : String)
        (rr : Option String) (v : Nat),
      authenticate profiles nid l4 rr ≠ Except.ok (some v)) := by
  have hcrash : ∀ (profiles : List MemberProfile) (nid l4 : String)
      (rr : Option String), (nid == "") = false → (l4 == "") = false →
      authenticate profiles nid l4 rr = Except.error "FieldError" := by
    intro profiles nid l4 rr hn hl
    unfold authenticate
    rw [if_neg (by simp [hn, hl])]
    rfl
  refine ⟨⟨_, rfl, rfl, rfl, rfl, rfl⟩, fun q => rfl,
    fun existing => rfl, hcrash, ?_⟩
  intro profiles nid l4 rr v hcon
  by_cases hn : (nid == "") = true
  · unfold authenticate at hcon
    rw [if_pos (by simp [hn])] at hcon
    exact Option.noConfusion (Except.ok.inj hcon)
  · by_cases hl : (l4 == "") = true
    · unfold authenticate at hcon
      rw [if_pos (by simp [hl])] at hcon
      exact Option.noConfusion (Except.ok.inj hcon)
    · have hn' : (nid == "") = false := by
        revert hn
        cases (nid == "") <;> simp
      have hl' : (l4 == "") = false := by
        revert hl
        cases (l4 == "") <;> simp
      rw [hcrash profiles nid l4 rr hn' hl'] at hcon
      exact Except.noConfusion hcon

/-- Witness for the amended C10: the signal output for user 1, the crash
on the stored inactive profile, and the impossibility of any successful
authentication at that input. -/
theorem C10_amended_profile_and_auth_witness :
    (∃ p, ensure_profile true none 1 = some p ∧ p.role = "supervisor" ∧
      p.committee = none ∧ p.opportunity = none ∧ p.is_active = false) ∧
    authenticate [exInactiveProfile] "55" "9999" none
      = Except.error "FieldError" ∧
    (∀ v, authenticate [exInactiveProfile] "55" "9999" none
      ≠ Except.ok (some v)) := by
  have h := C10_amended_profile_and_auth 1
  exact ⟨h.1, h.2.2.2.1 [exInactiveProfile] "55" "9999" none rfl rfl,
    fun v => h.2.2.2.2 [exInactiveProfile] "55" "9999" none v⟩

-- ==========================================================
-- The finalized-implies-assigned invariant is inductive
-- ==========================================================

/-- Primary keys of the candidate table are unique (Django guarantees
this for `pk`). -/
def CandKeysUnique (db : DB) : Prop :=
  db.candidates.Pairwise (fun a b => a.1 ≠ b.1)

instance (db : DB) : Decidable (CandKeysUnique db) := by
  unfold CandKeysUnique
  exact List.instDecidablePairwise _

/-- Two rows of a key-unique table with the same key are the same row. -/
theorem pairwise_key_unique {α : Type} {key : α → Nat} {l : List α}
    (hu : l.Pairwise (fun a b => key a ≠ key b)) {a b : α}
    (ha : a ∈ l) (hb : b ∈ l) (h : key a = key b) : a = b := by
  induction l with
  | nil => cases ha
  | cons x t ih =>
    rcases List.pairwise_cons.mp hu with ⟨hx, ht⟩
    cases ha with
    | head =>
      cases hb with
      | head => rfl
      | tail _ hb' => exact absurd h (hx b hb')
    | tail _ ha' =>
      cases hb with
      | head => exact absurd h.symm (hx a ha')
      | tail _ hb' => exact ih ht ha' hb'

/-- `updateCandidate` keeps candidate keys unique. -/
theorem updateCandidate_keysUnique (db : DB) (pk : Nat)
    (f : Candidate → Candidate) (hk : CandKeysUnique db) :
    CandKeysUnique (updateCandidate db pk f) := by
  unfold CandKeysUnique updateCandidate
  rw [List.pairwise_map]
  refine hk.imp ?_
  intro a b hab
  by_cases hka : (a.1 == pk) = true <;>
    by_cases hkb : (b.1 == pk) = true <;> simp [hka, hkb, hab]

/-- A state with no finalized candidate (e.g. a freshly imported table)
satisfies the invariant. -/
theorem finalizedAssigned_of_unfinalized (db : DB)
    (h : ∀ e ∈ db.candidates, e.2.is_finalized = false) :
    FinalizedAssigned db := by
  intro e he hfin
  rw [h e he] at hfin
  exact Bool.noConfusion hfin

/-- An update that keeps `is_finalized` and either keeps the assignment
or makes it non-null preserves the invariant. -/
theorem updateCandidate_finalizedAssigned (db : DB) (pk : Nat)
    (f : Candidate → Candidate)
    (hinv : FinalizedAssigned db)
    (hf : ∀ c, (f c).is_finalized = c.is_finalized ∧
        ((f c).assigned_committee = c.assigned_committee ∨
         (f c).assigned_committee.isSome = true)) :
    FinalizedAssigned (updateCandidate db pk f) := by
  intro e he hfin
  rcases List.mem_map.mp he with ⟨e0, he0, heq⟩
  subst heq
  by_cases hk : (e0.1 == pk) = true
  · rw [if_pos hk] at hfin ⊢
    change (f e0.2).is_finalized = true at hfin
    change (f e0.2).assigned_committee.isSome = true
    rw [(hf e0.2).1] at hfin
    rcases (hf e0.2).2 with ha | ha
    · rw [ha]
      exact hinv e0 he0 hfin
    · exact ha
  · rw [if_neg hk] at hfin ⊢
    exact hinv e0 he0 hfin

/-- An assignment-preserving update of a key all of whose rows are
assigned preserves the invariant, even if it sets the finalized flag. -/
theorem updateCandidate_finalizedAssigned_lock (db : DB) (pk : Nat)
    (f : Candidate → Candidate)
    (hinv : FinalizedAssigned db)
    (hfa : ∀ c, (f c).assigned_committee = c.assigned_committee)
    (hpk : ∀ e ∈ db.candidates, e.1 = pk →
      e.2.assigned_committee.isSome = true) :
    FinalizedAssigned (updateCandidate db pk f) := by
  intro e he hfin
  rcases List.mem_map.mp he with ⟨e0, he0, heq⟩
  subst heq
  by_cases hk : (e0.1 == pk) = true
  · rw [if_pos hk]
    change (f e0.2).assigned_committee.isSome = true
    rw [hfa]
    exact hpk e0 he0 (beq_iff_eq.mp hk)
  · rw [if_neg hk] at hfin ⊢
    exact hinv e0 he0 hfin

/-- The four workflow handlers preserve the finalized-implies-assigned
invariant on key-unique tables: the hypothesis of the C2 theorem holds in
every state the workflow can produce from an unfinalized import. -/
theorem handlers_preserve_finalizedAssigned (db : DB)
    (hkeys : CandKeysUnique db) (hinv : FinalizedAssigned db) :
    (∀ caller pk user now action,
      FinalizedAssigned (file_score_view db caller pk user now action).2) ∧
    (∀ cand_id committee_id,
      FinalizedAssigned (distribution_view db cand_id committee_id).2) ∧
    (∀ com pk member raw notes,
      FinalizedAssigned (committee_score db com pk member raw notes).2) ∧
    (∀ com pk user now nominated reason,
      FinalizedAssigned
        (chair_finalize db com pk user now nominated reason).2) := by
  refine ⟨?_, ?_, ?_, ?_⟩
  · intro caller pk user now action
    simp only [file_score_view]
    split
    · exact hinv
    · split
      · exact hinv
      · split
        · exact updateCandidate_finalizedAssigned db pk _ hinv
            (fun c => ⟨rfl, Or.inl rfl⟩)
        · split
          · exact hinv
          · exact updateCandidate_finalizedAssigned db pk _ hinv
              (fun c => ⟨rfl, Or.inl rfl⟩)
  · intro cand_id committee_id
    simp only [distribution_view]
    split
    · exact hinv
    · split
      · exact hinv
      · split
        · exact hinv
        · split
          · exact hinv
          · split
            · exact hinv
            · exact updateCandidate_finalizedAssigned db cand_id _ hinv
                (fun c => ⟨rfl, Or.inr rfl⟩)
  · intro com pk member raw notes
    simp only [committee_score]
    split
    · exact hinv
    · split
      · exact hinv
      · split
        · exact hinv
        · exact hinv
  · intro com pk user now nominated reason
    simp only [chair_finalize]
    split
    · exact hinv
    · next cand0 heqc =>
      split
      · exact hinv
      · split
        · exact hinv
        · have hget : getCandidate db pk = some cand0 ∧
              (cand0.assigned_committee == some com) = true := by
            rcases hbind : getCandidate db pk with - | c1
            · rw [hbind] at heqc
              cases heqc
            · rw [hbind] at heqc
              simp only [Option.some_bind] at heqc
              by_cases hbc : (c1.assigned_committee == some com) = true
              · rw [if_pos hbc] at heqc
                have hcc : c1 = cand0 := Option.some.inj heqc
                subst hcc
                exact ⟨rfl, hbc⟩

              · rw [if_neg hbc] at heqc
                cases heqc
          rcases getCandidate_some_mem db pk cand0 hget.1 with
            ⟨e1, he1, he1k, he1v⟩
          refine updateCandidate_finalizedAssigned_lock _ pk _ hinv
            (fun c => rfl) ?_
          intro e he hek
          have : e = e1 := pairwise_key_unique hkeys he he1
            (by rw [hek, he1k])
          rw [this, he1v]
          rcases hsome : cand0.assigned_committee with - | k
          · rw [hsome] at hget
            exact Bool.noConfusion hget.2
          · rfl

end CandidatesPortal
